import Mathlib

/-!
Verification of the blueoak-server dependency-injection loader and its
swagger coercion utility against their natural-language specification.

The JavaScript sources are shallowly embedded:
* `lib/swaggerUtil.js` (`castValueFromString`, `parseArray`) over an
  inductive type of JSON-ish values, with JS numbers restricted to
  integer literals (floating point is outside the embedding's scope) and
  a thrown `TypeError` modelled as `Option.none`;
* the loader factory (`createLoader`) over explicit registry state
  (module map, dependency map, injected map, consumer map) passed
  functionally, with the node `require` ecosystem (`subRequire`) as an
  environment parameter and the `async` library's `each`/`eachSeries`
  sequentialised (intra-group concurrency is not represented; dispatch
  order is list order).
-/

namespace BlueOak

/-- JS `Error` objects are modelled by their message string. -/
abbrev Err := String

/-! ## swaggerUtil: values and schemas -/

/-- A JSON-ish runtime value as handled by `castValueFromString`.
Numbers are modelled as integers; fractional numerics are outside the
scope of this embedding (the claims only exercise integer values). -/
inductive SwagValue where
  | str : String → SwagValue
  | num : Int → SwagValue
  | bool : Bool → SwagValue
  | arr : List SwagValue → SwagValue

/-- The schema `type` field values distinguished by `castValueFromString`.
Any other type (`string`, `object`, ...) falls through unchanged. -/
inductive SwagType where
  | number | integer | boolean | array | other
deriving DecidableEq

/-- A swagger parameter schema: its `type`, optional `collectionFormat`,
and optional `items` sub-schema (for arrays). -/
inductive Schema where
  | mk : SwagType → Option String → Option Schema → Schema

/-- The `type` field of a schema. -/
def Schema.type : Schema → SwagType
  | .mk t _ _ => t

/-- The `collectionFormat` field of a schema. -/
def Schema.collectionFormat : Schema → Option String
  | .mk _ cf _ => cf

/-- The `items` field of a schema. -/
def Schema.items : Schema → Option Schema
  | .mk _ _ it => it

/-- Numeric value of a decimal digit character. -/
def digitVal (c : Char) : Nat := c.toNat - 48

/-- Value of a non-empty all-digit character list, base 10. -/
def digitsVal (l : List Char) : Option Nat :=
  if l ≠ [] ∧ l.all Char.isDigit then
    some (l.foldl (fun a c => a * 10 + digitVal c) 0)
  else none

/-- JS `Number(s)` for a string `s`, restricted to optionally signed
decimal integer literals: leading/trailing ASCII whitespace is trimmed,
the empty (or all-whitespace) string converts to `0`, and anything that
is not an integer literal is `NaN`, modelled as `none`.  (Fractional,
exponent and hex forms are outside this embedding's scope.) -/
def jsNumberOfString (s : String) : Option Int :=
  let t := (s.data.dropWhile Char.isWhitespace).reverse.dropWhile Char.isWhitespace
    |>.reverse
  match t with
  | [] => some 0
  | '-' :: rest => (digitsVal rest).map (fun n => -(n : Int))
  | '+' :: rest => (digitsVal rest).map (fun n => (n : Int))
  | l => (digitsVal l).map (fun n => (n : Int))

/-- JS `Number(v)` on an arbitrary value: strings parse as above,
booleans convert to 0/1, arrays convert through their single element
(`Number([]) = 0`, `Number([x]) = Number(x)`, longer arrays are `NaN`).
`none` models `NaN`. -/
def jsNumber : SwagValue → Option Int
  | .str s => jsNumberOfString s
  | .num n => some n
  | .bool b => some (if b then 1 else 0)
  | .arr [] => some 0
  | .arr [x] => jsNumber x
  | .arr (_ :: _ :: _) => none

/-- Split a character list on a separator character, as JS
`String.prototype.split` with a single-character separator:
`"" → [""]`, and every occurrence of the separator starts a new
(possibly empty) chunk. -/
def splitChars (sep : Char) : List Char → List (List Char)
  | [] => [[]]
  | c :: cs =>
    match splitChars sep cs with
    | [] => [[]]
    | g :: gs => if c = sep then [] :: g :: gs else (c :: g) :: gs

/-- The delimiter table of `parseArray`:
`csv → ','`, `ssv → ' '`, `tsv → '\t'`, `pipes → '|'`; any other format
has no entry (JS then calls `split(undefined)`, which returns the whole
string as a one-element array). -/
def splitCharFor (format : String) : Option Char :=
  if format = "csv" then some ','
  else if format = "ssv" then some ' '
  else if format = "tsv" then some '\t'
  else if format = "pipes" then some '|'
  else none

/-- `parseArray(str, format)` from `lib/swaggerUtil.js`: the `multi`
format wraps a non-array into a one-element array; otherwise the value
is split on the format's delimiter.  Calling `.split` on a non-string
value throws in JS, modelled as `none`. -/
def parseArray (v : SwagValue) (format : String) : Option (List SwagValue) :=
  if format = "multi" then
    some (match v with
      | .arr l => l
      | x => [x])
  else
    match v with
    | .str s =>
      some (match splitCharFor format with
        | some ch => (splitChars ch s.data).map (fun cs => .str (String.mk cs))
        | none => [.str s])
    | _ => none

mutual
/-- `castValueFromString(schema, value)` from `lib/swaggerUtil.js`.
The three coercion branches are mutually exclusive because a schema has
a single `type`.  `none` models a thrown `TypeError` (splitting a
non-string, or recursing into a missing `items` schema with a non-empty
element list). -/
def castValueFromString : Schema → SwagValue → Option SwagValue
  | .mk .number _ _, v =>
    some (match jsNumber v with
      | some n => .num n
      | none => v)
  | .mk .integer _ _, v =>
    some (match jsNumber v with
      | some n => .num n
      | none => v)
  | .mk .boolean _ _, v =>
    some (match v with
      | .str s => if s = "true" then .bool true
                  else if s = "false" then .bool false
                  else .str s
      | x => x)
  | .mk .array cf items, v =>
    -- `schema.collectionFormat || 'csv'`: the empty string is falsy in JS
    let format := match cf with
      | none => "csv"
      | some "" => "csv"
      | some f => f
    let elems? := match v with
      | .arr l => some l
      | x => parseArray x format
    match elems? with
    | none => none
    | some elems =>
      match items with
      | some isch => (castList isch elems).map .arr
      | none =>
        -- the element loop calls castValueFromString(undefined, e),
        -- which throws as soon as there is an element
        match elems with
        | [] => some (.arr [])
        | _ :: _ => none
  | .mk .other _ _, v => some v
termination_by sch _ => (sizeOf sch, 0)

/-- The element loop of the array branch: each element is coerced
against the item schema, left to right. -/
def castList : Schema → List SwagValue → Option (List SwagValue)
  | _, [] => some []
  | sch, x :: xs =>
    match castValueFromString sch x, castList sch xs with
    | some y, some ys => some (y :: ys)
    | _, _ => none
termination_by sch l => (sizeOf sch, sizeOf l)
end

/-! ## Name normalization -/

/-- The character class of the regex `[-_\s]`: dash (45), underscore
(95), or whitespace — space (32), tab (9), LF (10), CR (13), vertical
tab (11), form feed (12).  (Non-ASCII Unicode spaces also matched by JS
`\s` are outside this embedding's scope.) -/
def isSep (c : Char) : Bool :=
  decide (c.toNat = 45 ∨ c.toNat = 95 ∨ c.toNat = 32 ∨ c.toNat = 9 ∨
          c.toNat = 10 ∨ c.toNat = 13 ∨ c.toNat = 11 ∨ c.toNat = 12)

/-- The character class of the regex `[A-Z]` (ASCII capitals only). -/
def isAsciiUpper (c : Char) : Bool :=
  decide (65 ≤ c.toNat ∧ c.toNat ≤ 90)

/-- JS `toLowerCase` restricted to ASCII: `A`–`Z` map 32 code points up,
everything else is unchanged. -/
def jsToLower (c : Char) : Char :=
  if 65 ≤ c.toNat ∧ c.toNat ≤ 90 then Char.ofNat (c.toNat + 32) else c

/-- `replace(/([A-Z])/g, '-$1')`: insert a dash before every ASCII
capital (including a leading one — the regex has no word-internal
guard). -/
def dashCaps : List Char → List Char
  | [] => []
  | c :: cs => if isAsciiUpper c then '-' :: c :: dashCaps cs else c :: dashCaps cs

/-- `replace(/[-_\s]+/g, '-')` as a single scan; the flag records
whether the scan is inside a separator run already replaced by one
dash. -/
def collapseSeps (inRun : Bool) : List Char → List Char
  | [] => []
  | c :: cs =>
    if isSep c then
      if inRun then collapseSeps true cs else '-' :: collapseSeps true cs
    else c :: collapseSeps false cs

/-- `normalizeServiceName` on the underlying character list:
dash before capitals, collapse separator runs, lowercase. -/
def normalizeChars (l : List Char) : List Char :=
  (collapseSeps false (dashCaps l)).map jsToLower

/-- `normalizeServiceName(str)` from the loader source:
`str.replace(/([A-Z])/g, '-$1').replace(/[-_\s]+/g, '-').toLowerCase()`. -/
def normalizeServiceName (s : String) : String :=
  String.mk (normalizeChars s.data)

/-- `normalizeServiceNames(names)`: map the normalization over a list. -/
def normalizeServiceNames (names : List String) : List String :=
  names.map normalizeServiceName

/-! ## Loader registry model

Registry maps are association lists in insertion order (JS object
string keys enumerate in insertion order, and `for...in` is modelled
over a snapshot; keys added during a pass are visited by the next
pass).  Injected objects and modules are JS objects, hence truthy, so a
successful lookup coincides with JS truthiness of `map[id]`. -/

variable {α : Type}

/-- `map[k]` on a JS object modelled as an association list
(keys are unique, so first match is the entry). -/
def lookupA (l : List (String × α)) (k : String) : Option α :=
  match l with
  | [] => none
  | p :: rest => if p.1 = k then some p.2 else lookupA rest k

/-- `map[k] = v`: overwrite in place if the key exists (JS objects keep
the original key position), append otherwise. -/
def updateA (l : List (String × α)) (k : String) (v : α) : List (String × α) :=
  match l with
  | [] => [(k, v)]
  | p :: rest => if p.1 = k then (k, v) :: rest else p :: updateA rest k v

/-- A loaded module: its value as seen by dependents (`val`), the raw
parameter names of its `init` entry point (`di.getParamNames`, modelled
as data since `lib/di.js` is not among the provided sources), whether
`init` takes a trailing callback (`di.hasCallback`), the outcome of
invoking `init` with the given arguments (`none` = success, `some e` =
a thrown error or an error passed to the completion callback — in this
sequential embedding both protocols reduce to this outcome), and the
optional dynamic-dependency hook (`getDependencies`). -/
structure Module (α : Type) where
  val : α
  params : List String
  hasCallback : Bool
  initRes : List (Option α) → Option Err
  getDeps : Option (Option α → List String) := none

/-- The four registry maps of `createLoader`. -/
structure LoaderState (α : Type) where
  moduleMap : List (String × Module α)
  dependencyMap : List (String × List String)
  injectedMap : List (String × α)
  consumerMap : List (String × Module α)

/-- A loader with empty registries. -/
def emptyState (α : Type) : LoaderState α := ⟨[], [], [], []⟩

/-- The external module ecosystem reachable through `subRequire`
(`lib/subRequire.js` is not among the provided sources; per §6 it
loads a module by identifier or fails with a load error, whose message
is the `Except.error` payload). -/
def ExtEnv (α : Type) := String → Except Err (Module α)

/-- Result of the unmet-dependency scan: the `(requester, dependency)`
pairs for which an external load was attempted, in order, and either
the first load error or the updated state (paired with the `runAgain`
flag in the single-pass helpers). -/
structure FetchRes (α : Type) where
  attempts : List (String × String)
  out : Except Err (LoaderState α × Bool)

/-- Like `FetchRes` but for the completed fixpoint iteration. -/
structure FetchOut (α : Type) where
  attempts : List (String × String)
  result : Except Err (LoaderState α)

/-- The `deps.forEach` loop of `fetchUnmetDependencies` for one
requesting module: every dependency found in neither the dependency map
nor the injected map is loaded externally (`loadExternalModule`
records the module and its own normalized parameter names as new
dependencies, and sets `runAgain`); a load failure is rethrown as an
error naming the dependency and the requester, aborting the scan. -/
def fetchDepsFor (env : ExtEnv α) (requester : String) :
    List String → LoaderState α → Bool → FetchRes α
  | [], s, again => ⟨[], .ok (s, again)⟩
  | d :: rest, s, again =>
    if (lookupA s.dependencyMap d).isNone ∧ (lookupA s.injectedMap d).isNone then
      match env d with
      | .error msg =>
        ⟨[(requester, d)],
         .error ("Error loading dependency " ++ d ++ " for " ++ requester ++ ": " ++ msg)⟩
      | .ok m =>
        let s' : LoaderState α :=
          { s with moduleMap := updateA s.moduleMap d m,
                   dependencyMap := updateA s.dependencyMap d (normalizeServiceNames m.params) }
        let r := fetchDepsFor env requester rest s' true
        ⟨(requester, d) :: r.attempts, r.out⟩
    else
      fetchDepsFor env requester rest s again

/-- The `for (var id in dependencyMap)` loop of one pass of
`fetchUnmetDependencies`, over a snapshot of the entries. -/
def fetchPass (env : ExtEnv α) :
    List (String × List String) → LoaderState α → Bool → FetchRes α
  | [], s, again => ⟨[], .ok (s, again)⟩
  | (id, deps) :: rest, s, again =>
    let r := fetchDepsFor env id deps s again
    match r.out with
    | .error e => ⟨r.attempts, .error e⟩
    | .ok (s', again') =>
      let r2 := fetchPass env rest s' again'
      ⟨r.attempts ++ r2.attempts, r2.out⟩

/-- `fetchUnmetDependencies()`: run passes until no pass loads anything
(`runAgain` false).  The source recurses unboundedly; `fuel` bounds the
number of repeat passes in this embedding (exhaustion stops early with
the state reached so far). -/
def fetchUnmetDependencies (env : ExtEnv α) : Nat → LoaderState α → FetchOut α
  | 0, s =>
    let r := fetchPass env s.dependencyMap s false
    match r.out with
    | .error e => ⟨r.attempts, .error e⟩
    | .ok (s', _) => ⟨r.attempts, .ok s'⟩
  | fuel + 1, s =>
    let r := fetchPass env s.dependencyMap s false
    match r.out with
    | .error e => ⟨r.attempts, .error e⟩
    | .ok (s', again) =>
      match again with
      | true =>
        let r2 := fetchUnmetDependencies env fuel s'
        ⟨r.attempts ++ r2.attempts, r2.result⟩
      | false => ⟨r.attempts, .ok s'⟩

/-- lodash `_.unique`: de-duplicate keeping first occurrences. -/
def dedupFirstAux (seen : List String) : List String → List String
  | [] => []
  | x :: xs => if x ∈ seen then dedupFirstAux seen xs else x :: dedupFirstAux (x :: seen) xs

/-- De-duplicate a list of names keeping first occurrences. -/
def dedupFirst (l : List String) : List String := dedupFirstAux [] l

/-- Modelled from the spec: `dependencyCalc.calcGroups`
(`lib/dependencyCalc.js` is not among the provided sources).  Per
§4.4, repeatedly collect every node whose dependencies are fully
satisfied by previously emitted groups into the next group; if no node
can be placed while some remain (a cycle or a reference to a
non-existent id), fail with an error identifying the nodes involved. -/
def calcGroupsAux : Nat → List (String × List String) → List String →
    Except Err (List (List String))
  | _, [], _ => .ok []
  | 0, remaining, _ =>
    .error ("Could not resolve dependency groups for: " ++
      String.intercalate ", " (remaining.map (fun p => p.1)))
  | fuel + 1, remaining, placed =>
    let ready := remaining.filter (fun p => p.2.all (fun d => placed.contains d))
    if ready.isEmpty then
      .error ("Cyclic or unresolvable dependencies among: " ++
        String.intercalate ", " (remaining.map (fun p => p.1)))
    else
      let rest := remaining.filter (fun p => !(p.2.all (fun d => placed.contains d)))
      (calcGroupsAux fuel rest (placed ++ ready.map (fun p => p.1))).map
        (fun gs => ready.map (fun p => p.1) :: gs)

/-- Entry point of the spec-modelled group calculator. -/
def calcGroups (nodes : List (String × List String)) : Except Err (List (List String)) :=
  calcGroupsAux nodes.length nodes []

/-- `calculateDependencyTree(initList)` from the loader.  A forced
`initList` turns each entry into its own singleton group, bypassing
graph inference entirely; otherwise each dependency-map entry becomes a
node (a module exposing `getDependencies` contributes the dynamic list
— computed against the injected `service-loader` record — unioned with
its static list, first occurrences kept), injected records without an
explicit dependency list become dependency-free nodes, and the nodes
are grouped by `calcGroups`. -/
def calculateDependencyTree (s : LoaderState α) :
    Option (List String) → Except Err (List (List String))
  | some initList => .ok (initList.map (fun x => [x]))
  | none =>
    let nodes := s.dependencyMap.map (fun p =>
      match lookupA s.moduleMap p.1 with
      | some m =>
        match m.getDeps with
        | some hook =>
          let dyn := normalizeServiceNames (hook (lookupA s.injectedMap "service-loader"))
          (p.1, dedupFirst (dyn ++ p.2))
        | none => (p.1, p.2)
      | none => (p.1, p.2))
    let injNodes := (s.injectedMap.filter
      (fun p => (lookupA s.dependencyMap p.1).isNone)).map
        (fun p => (p.1, ([] : List String)))
    calcGroups (nodes ++ injNodes)

/-- Outcome of dispatching one node. -/
inductive NodeRes where
  | ok : NodeRes
  | err : Err → NodeRes
  | crash : Err → NodeRes
deriving DecidableEq

/-- The parameter-resolution loop of the init pass:
`moduleMap[deps[i]] || injectedMap[deps[i]]` — the module map is
consulted first, then the injected map; a name found in neither is
passed as `undefined` (`none`). -/
def resolveParams (s : LoaderState α) (deps : List String) : List (Option α) :=
  deps.map (fun d =>
    match lookupA s.moduleMap d with
    | some m => some m.val
    | none => lookupA s.injectedMap d)

/-- Dispatch one node of the service init pass.  Injected and consumer
ids are skipped.  An id with no module record crashes with a
`TypeError` (the source reads `toLoad.init` outside any try/catch), as
does a module without a dependency list (`deps.length` on
`undefined`).  Otherwise the module's init runs on the resolved
parameters; sync throws and async callback errors both surface as the
`initRes` outcome. -/
def runNode (s : LoaderState α) (id : String) : NodeRes :=
  if (lookupA s.injectedMap id).isSome ∨ (lookupA s.consumerMap id).isSome then .ok
  else
    match lookupA s.moduleMap id with
    | none => .crash "TypeError: Cannot read property init of undefined"
    | some m =>
      match lookupA s.dependencyMap id with
      | none => .crash "TypeError: Cannot read property length of undefined"
      | some deps =>
        match m.initRes (resolveParams s deps) with
        | none => .ok
        | some e => .err e

/-- `async.each` over one group, sequentialised: members are dispatched
in list order; the first reported error is remembered (later members
are still dispatched, since `async.each` loops over all of them up
front); a synchronous crash stops the dispatch loop.  Returns (first
error, crash, dispatched member ids). -/
def runGroup (s : LoaderState α) :
    List String → Option Err → Option Err × Option Err × List String
  | [], fe => (fe, none, [])
  | id :: rest, fe =>
    match runNode s id with
    | .ok =>
      let r := runGroup s rest fe
      (r.1, r.2.1, id :: r.2.2)
    | .err e =>
      let fe' := match fe with
        | some e0 => some e0
        | none => some e
      let r := runGroup s rest fe'
      (r.1, r.2.1, id :: r.2.2)
    | .crash e => (fe, some e, [id])

/-- Observable outcome of a run of `init`: the completion-callback
invocations in order (each carries only an optional error — the source
always calls `callback(err)` with no value argument), a synchronous
exception escaping `init` if any, and the dispatched node ids. -/
structure InitOut where
  calls : List (Option Err)
  crash : Option Err
  trace : List String
deriving DecidableEq

/-- `async.eachSeries` over the groups: a group's first error goes to
the series callback, which delivers it to the caller and prevents any
later group from starting; a crash propagates synchronously (after the
callback has already fired if an error preceded the crash within the
same group). -/
def runGroups (s : LoaderState α) : List (List String) → InitOut
  | [] => ⟨[none], none, []⟩
  | g :: rest =>
    let r := runGroup s g none
    match r.2.1 with
    | some c =>
      ⟨(match r.1 with
         | some e => [some e]
         | none => []), some c, r.2.2⟩
    | none =>
      match r.1 with
      | some e => ⟨[some e], none, r.2.2⟩
      | none =>
        let next := runGroups s rest
        ⟨next.calls, next.crash, r.2.2 ++ next.trace⟩

/-- `init(initList, callback)` from the loader: resolve unmet external
dependencies (a failure is returned through the callback), compute the
dependency groups (a failure is returned through the callback), then
execute the groups in series. -/
def init (env : ExtEnv α) (fuel : Nat) (s : LoaderState α)
    (initList : Option (List String)) : InitOut :=
  match (fetchUnmetDependencies env fuel s).result with
  | .error e => ⟨[some e], none, []⟩
  | .ok s' =>
    match calculateDependencyTree s' initList with
    | .error e => ⟨[some e], none, []⟩
    | .ok groups => runGroups s' groups

/-- `inject(id, obj, deps)`: store the object under the normalized id;
an explicit dependency list is normalized and recorded. -/
def inject (s : LoaderState α) (id : String) (obj : α)
    (deps : Option (List String)) : LoaderState α :=
  let normId := normalizeServiceName id
  let s1 : LoaderState α := { s with injectedMap := updateA s.injectedMap normId obj }
  match deps with
  | some ds =>
    { s1 with dependencyMap := updateA s1.dependencyMap normId (normalizeServiceNames ds) }
  | none => s1

/-- The registration `loadServices` performs for one module file: the
module is stored under its normalized id, and its dependency list is
the normalized parameter names of its `init` entry point. -/
def registerService (s : LoaderState α) (rawId : String) (m : Module α) : LoaderState α :=
  let normId := normalizeServiceName rawId
  { s with moduleMap := updateA s.moduleMap normId m,
           dependencyMap := updateA s.dependencyMap normId (normalizeServiceNames m.params) }

/-- `get(id)`: `return moduleMap[id]` — the raw id indexes the module
map directly. -/
def get (s : LoaderState α) (id : String) : Option (Module α) :=
  lookupA s.moduleMap id

/-- The loader paired with the external loader's cache.  Modelled from
the spec: `subRequire`'s cache of loaded artifacts
(`lib/subRequire.js` is not among the provided sources); per §6
`unload(identifier)` invalidates the cache entry so a later load
re-reads fresh content. -/
structure World (α : Type) where
  state : LoaderState α
  extCache : List String

/-- `unload(id)`: `subRequire.unload(id)` — only the external loader's
cache entry for `id` is dropped; the registry maps are untouched. -/
def unload (w : World α) (id : String) : World α :=
  { w with extCache := w.extCache.filter (fun k => k ≠ id) }

/-! ## Character-level lemmas for the normalization pipeline -/

theorem char_toNat_ofNat_of_valid {n : Nat} (h : n.isValidChar) :
    (Char.ofNat n).toNat = n := by
  unfold Char.ofNat
  rw [dif_pos h]
  rfl

theorem jsToLower_toNat (c : Char) (h : 65 ≤ c.toNat ∧ c.toNat ≤ 90) :
    (jsToLower c).toNat = c.toNat + 32 := by
  unfold jsToLower
  rw [if_pos h]
  exact char_toNat_ofNat_of_valid (Or.inl (by omega))

theorem jsToLower_eq_self (c : Char) (h : ¬(65 ≤ c.toNat ∧ c.toNat ≤ 90)) :
    jsToLower c = c := by
  unfold jsToLower
  exact if_neg h

/-- Lowercasing never yields an ASCII capital. -/
theorem isAsciiUpper_jsToLower (c : Char) : isAsciiUpper (jsToLower c) = false := by
  by_cases h : 65 ≤ c.toNat ∧ c.toNat ≤ 90
  · have ht := jsToLower_toNat c h
    unfold isAsciiUpper
    rw [decide_eq_false_iff_not]
    omega
  · rw [jsToLower_eq_self c h]
    unfold isAsciiUpper
    rw [decide_eq_false_iff_not]
    exact h

/-- Lowercasing is idempotent. -/
theorem jsToLower_idem (c : Char) : jsToLower (jsToLower c) = jsToLower c := by
  apply jsToLower_eq_self
  have h := isAsciiUpper_jsToLower c
  unfold isAsciiUpper at h
  rw [decide_eq_false_iff_not] at h
  exact h

/-- Lowercasing preserves separator-hood. -/
theorem isSep_jsToLower (c : Char) : isSep (jsToLower c) = isSep c := by
  by_cases h : 65 ≤ c.toNat ∧ c.toNat ≤ 90
  · have ht := jsToLower_toNat c h
    unfold isSep
    rw [decide_eq_decide]
    constructor <;> intro hx <;> omega
  · rw [jsToLower_eq_self c h]

theorem jsToLower_dash : jsToLower '-' = '-' := by decide

theorem dashCaps_eq_self (l : List Char) (h : ∀ c ∈ l, isAsciiUpper c = false) :
    dashCaps l = l := by
  induction l with
  | nil => rfl
  | cons c cs ih =>
    unfold dashCaps
    rw [h c (List.mem_cons_self c cs)]
    simp only [Bool.false_eq_true, if_false]
    rw [ih (fun x hx => h x (List.mem_cons_of_mem c hx))]

theorem collapseSeps_cons (b : Bool) (c : Char) (cs : List Char) :
    collapseSeps b (c :: cs) =
      if isSep c then
        if b then collapseSeps true cs else '-' :: collapseSeps true cs
      else c :: collapseSeps false cs := rfl

/-- Both separator-collapse modes are idempotent. -/
theorem collapseSeps_idem (l : List Char) :
    collapseSeps false (collapseSeps false l) = collapseSeps false l ∧
    collapseSeps true (collapseSeps true l) = collapseSeps true l := by
  induction l with
  | nil => exact ⟨rfl, rfl⟩
  | cons c cs ih =>
    by_cases h : isSep c = true
    · have hd : isSep '-' = true := by decide
      constructor
      · rw [collapseSeps_cons, h]
        simp only [if_true, Bool.false_eq_true, if_false]
        rw [collapseSeps_cons, hd]
        simp only [if_true, Bool.false_eq_true, if_false]
        rw [ih.2]
      · rw [collapseSeps_cons, h]
        simp only [if_true]
        exact ih.2
    · rw [Bool.not_eq_true] at h
      constructor
      · rw [collapseSeps_cons, h]
        simp only [Bool.false_eq_true, if_false]
        rw [collapseSeps_cons, h]
        simp only [Bool.false_eq_true, if_false]
        rw [ih.1]
      · rw [collapseSeps_cons, h]
        simp only [Bool.false_eq_true, if_false]
        rw [collapseSeps_cons, h]
        simp only [Bool.false_eq_true, if_false]
        rw [ih.1]

/-- Collapsing separator runs commutes with lowercasing. -/
theorem collapseSeps_map_jsToLower (l : List Char) :
    ∀ b : Bool, collapseSeps b (l.map jsToLower) = (collapseSeps b l).map jsToLower := by
  induction l with
  | nil => intro b; rfl
  | cons c cs ih =>
    intro b
    rw [List.map_cons, collapseSeps_cons, collapseSeps_cons, isSep_jsToLower]
    by_cases h : isSep c = true
    · rw [h]
      simp only [if_true]
      cases b with
      | true => exact ih true
      | false =>
        simp only [Bool.false_eq_true, if_false, List.map_cons, jsToLower_dash]
        rw [ih true]
    · rw [Bool.not_eq_true] at h
      rw [h]
      simp only [Bool.false_eq_true, if_false, List.map_cons]
      rw [ih false]

theorem normalizeChars_no_upper (l : List Char) :
    ∀ c ∈ normalizeChars l, isAsciiUpper c = false := by
  intro c hc
  unfold normalizeChars at hc
  rcases List.mem_map.mp hc with ⟨a, _, rfl⟩
  exact isAsciiUpper_jsToLower a

/-- The normalization pipeline is idempotent on character lists. -/
theorem normalizeChars_idem (l : List Char) :
    normalizeChars (normalizeChars l) = normalizeChars l := by
  have h1 : dashCaps (normalizeChars l) = normalizeChars l :=
    dashCaps_eq_self _ (normalizeChars_no_upper l)
  show (collapseSeps false (dashCaps (normalizeChars l))).map jsToLower = normalizeChars l
  rw [h1]
  show (collapseSeps false
      ((collapseSeps false (dashCaps l)).map jsToLower)).map jsToLower = _
  rw [collapseSeps_map_jsToLower (collapseSeps false (dashCaps l)) false]
  rw [(collapseSeps_idem (dashCaps l)).1]
  rw [List.map_map]
  show ((collapseSeps false (dashCaps l)).map (jsToLower ∘ jsToLower)) = _
  exact List.map_congr_left (fun c _ => jsToLower_idem c)

/-! ## Claim C5 -/

/-- Claim C5, counterexample: the claimed three-way equality fails —
normalizing "FOO_BAR" prefixes a dash to every capital before
lowercasing, yielding "-f-o-o-b-a-r", which differs from
normalizing "fooBar" (which yields "foo-bar"). -/
theorem c5_counterexample :
    normalizeServiceName "FOO_BAR" ≠ normalizeServiceName "fooBar" := by decide

/-- Claim C5 (amended): name normalization is idempotent for every
string, and normalizeServiceName "fooBar" equals
normalizeServiceName "foo-bar" (both are "foo-bar"); but full
case/separator-insensitivity fails: normalizeServiceName "FOO_BAR" is
"-f-o-o-b-a-r", because the regex inserts a dash before every ASCII
capital, including consecutive and leading ones. -/
theorem c5_normalization (s : String) :
    normalizeServiceName (normalizeServiceName s) = normalizeServiceName s ∧
    normalizeServiceName "fooBar" = normalizeServiceName "foo-bar" ∧
    normalizeServiceName "fooBar" = "foo-bar" ∧
    normalizeServiceName "FOO_BAR" = "-f-o-o-b-a-r" := by
  refine ⟨?_, by decide, by decide, by decide⟩
  show String.mk (normalizeChars (String.mk (normalizeChars s.data)).data) = _
  show String.mk (normalizeChars (normalizeChars s.data)) = _
  rw [normalizeChars_idem]
  rfl

/-! ## Claims C9 and C10 -/

/-- The item schema of the C9 scenario: `{type: "integer"}`. -/
def intItemsSchema : Schema := .mk .integer none none

/-- The C9 scenario schema:
`{type:"array", collectionFormat:"pipes", items:{type:"integer"}}`. -/
def pipesIntArraySchema : Schema := .mk .array (some "pipes") (some intItemsSchema)

/-- Claim C9: casting the raw string "1|2|3" against the pipes-array-of
integer schema splits on the pipe delimiter and coerces each chunk
against the integer item schema, yielding the array [1, 2, 3]. -/
theorem c9_pipes_array_cast :
    castValueFromString pipesIntArraySchema (.str "1|2|3") =
      some (.arr [.num 1, .num 2, .num 3]) := by
  simp [castValueFromString, castList, parseArray, splitChars, splitCharFor,
        jsNumber, jsNumberOfString, digitsVal, digitVal,
        intItemsSchema, pipesIntArraySchema]

/-- The `{type: "boolean"}` schema of claim C10. -/
def booleanSchema : Schema := .mk .boolean none none

/-- Claim C10: for the boolean schema, exactly the literal strings
"true" and "false" convert to the booleans true and false; every other
value — any other string (such as "True", "TRUE" or "1"), and every
non-string — is returned unchanged. -/
theorem c10_boolean_cast :
    castValueFromString booleanSchema (.str "true") = some (.bool true) ∧
    castValueFromString booleanSchema (.str "false") = some (.bool false) ∧
    (∀ s : String, s ≠ "true" → s ≠ "false" →
        castValueFromString booleanSchema (.str s) = some (.str s)) ∧
    (∀ v : SwagValue, (∀ s : String, v ≠ .str s) →
        castValueFromString booleanSchema v = some v) := by
  refine ⟨by simp [castValueFromString, booleanSchema], by simp [castValueFromString, booleanSchema], ?_, ?_⟩
  · intro s h1 h2
    simp [castValueFromString, booleanSchema, h1, h2]
  · intro v hv
    cases v with
    | str s => exact absurd rfl (hv s)
    | num n => simp [castValueFromString, booleanSchema]
    | bool b => simp [castValueFromString, booleanSchema]
    | arr l => simp [castValueFromString, booleanSchema]

/-- Claim C10, witness: "TRUE" is not converted — it stays the string
"TRUE" — and "1" likewise stays a string. -/
theorem c10_boolean_cast_witness :
    castValueFromString booleanSchema (.str "TRUE") = some (.str "TRUE") ∧
    castValueFromString booleanSchema (.str "1") = some (.str "1") :=
  ⟨c10_boolean_cast.2.2.1 "TRUE" (by decide) (by decide),
   c10_boolean_cast.2.2.1 "1" (by decide) (by decide)⟩

/-! ## Claims about the loader registry (C6, C7, C8) -/

/-- An external ecosystem in which no module can be loaded. -/
def env0 : ExtEnv Nat := fun _ => .error "Cannot find module"

/-- Claim C6 (code-bug evidence): calling init with the forced order
["missing"] on an empty registry does not deliver an error through the
completion callback — the callback is never invoked (`calls = []`) and
a synchronous TypeError escapes init (reading `.init` of `undefined`
happens outside every try/catch). -/
theorem c6_forced_unknown_id_crashes :
    init env0 0 (emptyState Nat) (some ["missing"]) =
      ⟨[], some "TypeError: Cannot read property init of undefined", ["missing"]⟩ := rfl

/-- A module used by the registry counterexamples. -/
def plainModule : Module Nat :=
  { val := 1, params := [], hasCallback := false, initRes := fun _ => none }

/-- A registry holding the module "foo-bar" and an injected object
"cache". -/
def c7State : LoaderState Nat :=
  { moduleMap := [("foo-bar", plainModule)],
    dependencyMap := [("foo-bar", [])],
    injectedMap := [("cache", 99)],
    consumerMap := [] }

/-- Claim C7, counterexample: get neither consults the injected map nor
canonicalizes its argument — get "cache" misses the injected object
stored under the canonical id "cache", and get "fooBar" misses the
module stored under "foo-bar" even though "fooBar" normalizes to it. -/
theorem c7_counterexample :
    lookupA c7State.injectedMap "cache" = some 99 ∧
    (get c7State "cache").isNone = true ∧
    normalizeServiceName "fooBar" = "foo-bar" ∧
    (get c7State "foo-bar").isSome = true ∧
    (get c7State "fooBar").isNone = true := by decide

/-- Looking up the key just written finds the written value. -/
theorem lookupA_updateA (l : List (String × α)) (k : String) (v : α) :
    lookupA (updateA l k v) k = some v := by
  induction l with
  | nil => simp [updateA, lookupA]
  | cons a l ih =>
    by_cases hak : a.1 = k
    · simp [updateA, lookupA, hak]
    · simp only [updateA, if_neg hak]
      simp only [lookupA, if_neg hak]
      exact ih

/-- Updating one key leaves lookups of other keys unchanged. -/
theorem lookupA_updateA_ne (l : List (String × α)) (k k' : String) (v : α)
    (hne : k' ≠ k) :
    lookupA (updateA l k v) k' = lookupA l k' := by
  have hkk : ¬(k = k') := fun h => hne h.symm
  induction l with
  | nil => simp only [updateA, lookupA, if_neg hkk]
  | cons a l ih =>
    by_cases hak : a.1 = k
    · simp only [updateA, if_pos hak, lookupA, hak, if_neg hkk]
    · simp only [updateA, if_neg hak]
      by_cases hak' : a.1 = k'
      · simp only [lookupA, if_pos hak']
      · simp only [lookupA, if_neg hak']
        exact ih

/-- Claim C7 (amended): get(id) indexes only the module map with the
identifier exactly as given — after registering a service under a raw
name, get returns that module for the canonical form of the name, and
the injected and consumer maps and the dependency map never influence
get's answer. -/
theorem c7_get_amended (s : LoaderState α) (rawId : String) (m : Module α) :
    get (registerService s rawId m) (normalizeServiceName rawId) = some m ∧
    (∀ (id : String) (inj : List (String × α)) (cons : List (String × Module α))
        (dm : List (String × List String)),
      get { s with injectedMap := inj, consumerMap := cons, dependencyMap := dm } id =
        get s id) := by
  constructor
  · exact lookupA_updateA s.moduleMap (normalizeServiceName rawId) m
  · intro id inj cons dm
    rfl

/-- The world of the C8 counterexample: the registry of `c7State` plus
an external cache holding "foo-bar" and "other". -/
def c8World : World Nat := ⟨c7State, ["foo-bar", "other"]⟩

/-- Claim C8, counterexample: after unload("foo-bar") the module record
is still in the registry — get "foo-bar" still returns it — even though
the external loader's cache entry is gone. -/
theorem c8_counterexample :
    (get (unload c8World "foo-bar").state "foo-bar").isSome = true ∧
    (unload c8World "foo-bar").extCache = ["other"] := by decide

/-- Claim C8 (amended): unload(id) only asks the external loader to
forget its cached artifact for id (so a later load re-reads from
source); the module record is not removed — the registry state is
untouched and a subsequent get(id) still returns the module. -/
theorem c8_unload_amended (w : World α) (id : String) (m : Module α)
    (h : get w.state id = some m) :
    (unload w id).state = w.state ∧
    get (unload w id).state id = some m ∧
    id ∉ (unload w id).extCache := by
  refine ⟨rfl, h, ?_⟩
  intro hmem
  unfold unload at hmem
  have h2 := (List.mem_filter.mp hmem).2
  rw [decide_eq_true_eq] at h2
  exact h2 rfl

/-- Claim C8 witness: the amended statement at the concrete world. -/
theorem c8_unload_amended_witness :
    (unload c8World "foo-bar").state = c8World.state ∧
    get (unload c8World "foo-bar").state "foo-bar" = some plainModule ∧
    "foo-bar" ∉ (unload c8World "foo-bar").extCache :=
  c8_unload_amended c8World "foo-bar" plainModule rfl

/-! ## Execution lemmas (claims C2 and C3) -/

/-- A group that does not crash dispatches all of its members. -/
theorem runGroup_trace_of_no_crash (s : LoaderState α) :
    ∀ (g : List String) (fe : Option Err),
      (runGroup s g fe).2.1 = none → (runGroup s g fe).2.2 = g := by
  intro g
  induction g with
  | nil => intro fe _; rfl
  | cons id rest ih =>
    intro fe h
    cases hn : runNode s id with
    | ok =>
      simp only [runGroup, hn] at h ⊢
      exact congrArg (List.cons id) (ih _ h)
    | err e =>
      simp only [runGroup, hn] at h ⊢
      exact congrArg (List.cons id) (ih _ h)
    | crash e =>
      simp only [runGroup, hn] at h
      exact Option.noConfusion h

/-- The completion callback is invoked at most once per run of the
group series. -/
theorem runGroups_calls_length (s : LoaderState α) :
    ∀ gs : List (List String), (runGroups s gs).calls.length ≤ 1 := by
  intro gs
  induction gs with
  | nil => simp [runGroups]
  | cons g rest ih =>
    simp only [runGroups]
    cases hc : (runGroup s g none).2.1 with
    | some c =>
      cases hf : (runGroup s g none).1 <;> simp
    | none =>
      cases hf : (runGroup s g none).1 with
      | some e => simp
      | none => simpa using ih

/-- The error of the first group that reports one (the reference
"first fatal error" of the spec's propagation policy). -/
def firstGroupErr (s : LoaderState α) : List (List String) → Option Err
  | [] => none
  | g :: rest =>
    match (runGroup s g none).1 with
    | some e => some e
    | none => firstGroupErr s rest

/-- In a crash-free run the series callback fires exactly once, with
the first group error (or success). -/
theorem runGroups_calls_of_no_crash (s : LoaderState α) :
    ∀ gs : List (List String), (runGroups s gs).crash = none →
      (runGroups s gs).calls = [firstGroupErr s gs] := by
  intro gs
  induction gs with
  | nil => intro _; rfl
  | cons g rest ih =>
    intro hcr
    simp only [runGroups] at hcr ⊢
    cases hc : (runGroup s g none).2.1 with
    | some c =>
      simp only [hc] at hcr
      exact Option.noConfusion hcr
    | none =>
      simp only [hc] at hcr ⊢
      cases hf : (runGroup s g none).1 with
      | some e => simp only [hf, firstGroupErr]
      | none =>
        simp only [hf] at hcr ⊢
        simp only [firstGroupErr, hf]
        exact ih hcr

/-- If the callback reported an error, the groups decompose into fully
successful ones, then the failing group that produced exactly that
error; the trace stops inside the failing group, so no later group was
started. -/
theorem runGroups_first_failure (s : LoaderState α) :
    ∀ (gs : List (List String)) (e : Err), (runGroups s gs).calls = [some e] →
      ∃ pre g post, gs = pre ++ g :: post ∧
        (∀ g' ∈ pre, runGroup s g' none = (none, none, g')) ∧
        (runGroup s g none).1 = some e ∧
        (runGroups s gs).trace = pre.flatten ++ (runGroup s g none).2.2 := by
  intro gs
  induction gs with
  | nil =>
    intro e h
    exact absurd h (by simp [runGroups])
  | cons g rest ih =>
    intro e h
    cases hc : (runGroup s g none).2.1 with
    | some c =>
      simp only [runGroups, hc] at h ⊢
      cases hf : (runGroup s g none).1 with
      | some e' =>
        rw [hf] at h
        have he : e' = e := by
          have := List.head_eq_of_cons_eq h
          injection this
        refine ⟨[], g, rest, rfl, by simp, he ▸ hf, ?_⟩
        simp
      | none => rw [hf] at h; exact absurd h (by simp)
    | none =>
      cases hf : (runGroup s g none).1 with
      | some e' =>
        simp only [runGroups, hc, hf] at h ⊢
        have he : e' = e := by
          have := List.head_eq_of_cons_eq h
          injection this
        exact ⟨[], g, rest, rfl, by simp, he ▸ hf, by simp⟩
      | none =>
        simp only [runGroups, hc, hf] at h ⊢
        obtain ⟨pre, gFail, post, hgs, hpre, hg, htr⟩ := ih e h
        have hgtrace : (runGroup s g none).2.2 = g :=
          runGroup_trace_of_no_crash s g none hc
        have hr : runGroup s g none = (none, none, g) := by
          calc runGroup s g none
              = ((runGroup s g none).1,
                 (runGroup s g none).2.1, (runGroup s g none).2.2) := rfl
            _ = (none, none, g) := by rw [hf, hc, hgtrace]
        refine ⟨g :: pre, gFail, post, by rw [hgs]; rfl, ?_, hg, ?_⟩
        · intro g' hg'
          cases hg' with
          | head => exact hr
          | tail _ hmem => exact hpre g' hmem
        · rw [hgtrace, htr, List.flatten_cons, List.append_assoc]

/-- A run whose external-dependency resolution fails stops there. -/
theorem init_eq_of_fetch_error (env : ExtEnv α) (fuel : Nat) (s : LoaderState α)
    (l : Option (List String)) (e : Err)
    (hfr : (fetchUnmetDependencies env fuel s).result = .error e) :
    init env fuel s l = ⟨[some e], none, []⟩ := by
  unfold init
  rw [hfr]

/-- A run whose external-dependency resolution succeeds continues with
the dependency-tree computation on the updated state. -/
theorem init_eq_of_fetch_ok (env : ExtEnv α) (fuel : Nat) (s : LoaderState α)
    (l : Option (List String)) (s' : LoaderState α)
    (hfr : (fetchUnmetDependencies env fuel s).result = .ok s') :
    init env fuel s l =
      match calculateDependencyTree s' l with
      | .error e => ⟨[some e], none, []⟩
      | .ok groups => runGroups s' groups := by
  unfold init
  rw [hfr]

/-- Claim C2: the first error of a run — whether from external
resolution, graph build, or the first failing group — is delivered
exactly once through the completion callback (which carries only the
error, never a value), earlier groups completed fully, and no group
after the failing one is started; the callback never fires more than
once in any run. -/
theorem c2_first_error_delivered_once (env : ExtEnv α) (fuel : Nat)
    (s : LoaderState α) (l : Option (List String)) :
    (init env fuel s l).calls.length ≤ 1 ∧
    (∀ e, (fetchUnmetDependencies env fuel s).result = .error e →
        init env fuel s l = ⟨[some e], none, []⟩) ∧
    (∀ s' e, (fetchUnmetDependencies env fuel s).result = .ok s' →
        calculateDependencyTree s' l = .error e →
        init env fuel s l = ⟨[some e], none, []⟩) ∧
    (∀ s' groups, (fetchUnmetDependencies env fuel s).result = .ok s' →
        calculateDependencyTree s' l = .ok groups →
        ((init env fuel s l).crash = none →
            (init env fuel s l).calls = [firstGroupErr s' groups]) ∧
        (∀ e, (init env fuel s l).calls = [some e] →
            ∃ pre g post, groups = pre ++ g :: post ∧
              (∀ g' ∈ pre, runGroup s' g' none = (none, none, g')) ∧
              (runGroup s' g none).1 = some e ∧
              (init env fuel s l).trace = pre.flatten ++ (runGroup s' g none).2.2)) := by
  refine ⟨?_, ?_, ?_, ?_⟩
  · cases hfr : (fetchUnmetDependencies env fuel s).result with
    | error e => rw [init_eq_of_fetch_error env fuel s l e hfr]; simp
    | ok s' =>
      rw [init_eq_of_fetch_ok env fuel s l s' hfr]
      cases htr : calculateDependencyTree s' l with
      | error e => simp
      | ok groups => exact runGroups_calls_length s' groups
  · intro e hfr
    exact init_eq_of_fetch_error env fuel s l e hfr
  · intro s' e hfr htr
    rw [init_eq_of_fetch_ok env fuel s l s' hfr, htr]
  · intro s' groups hfr htr
    have hinit : init env fuel s l = runGroups s' groups := by
      rw [init_eq_of_fetch_ok env fuel s l s' hfr, htr]
    rw [hinit]
    exact ⟨runGroups_calls_of_no_crash s' groups,
           fun e => runGroups_first_failure s' groups e⟩

/-- A service whose init reports the error "boom". -/
def boomSvc : Module Nat :=
  { val := 3, params := [], hasCallback := false, initRes := fun _ => some "boom" }

/-- A registry holding only `boomSvc` under "svc". -/
def c2State : LoaderState Nat := registerService (emptyState Nat) "svc" boomSvc

/-- Claim C2 witness: a concrete failing run delivers exactly the
node's error through the callback. -/
theorem c2_first_error_delivered_once_witness :
    (init env0 1 c2State (some ["svc"])).calls = [some "boom"] := by
  have h := (c2_first_error_delivered_once env0 1 c2State
      (some ["svc"])).2.2.2 c2State [["svc"]] rfl rfl
  have h2 := h.1 rfl
  rw [h2]
  rfl

/-- Forced singleton groups in which every node succeeds execute in
exactly the forced order. -/
theorem runGroups_singletons_ok (s : LoaderState α) :
    ∀ l : List String, (∀ id ∈ l, runNode s id = .ok) →
      runGroups s (l.map (fun x => [x])) = ⟨[none], none, l⟩ := by
  intro l
  induction l with
  | nil => intro _; rfl
  | cons id rest ih =>
    intro h
    have hid := h id (List.mem_cons_self id rest)
    have hrest := ih (fun x hx => h x (List.mem_cons_of_mem id hx))
    simp only [List.map_cons, runGroups, runGroup, hid, hrest]
    rfl

/-- Claim C3: with a forced-order list, every listed identifier becomes
its own singleton group no matter what the registry's declared
dependencies are (graph inference is bypassed — the result does not
depend on the state at all), and when every listed node resolves and
succeeds, the run dispatches exactly the listed identifiers in the
given sequence and reports success once. -/
theorem c3_forced_order (env : ExtEnv α) (fuel : Nat) (s s' : LoaderState α)
    (l : List String)
    (hf : (fetchUnmetDependencies env fuel s).result = .ok s')
    (hok : ∀ id ∈ l, runNode s' id = .ok) :
    (∀ t : LoaderState α,
        calculateDependencyTree t (some l) = .ok (l.map (fun x => [x]))) ∧
    init env fuel s (some l) = ⟨[none], none, l⟩ := by
  refine ⟨fun t => rfl, ?_⟩
  rw [init_eq_of_fetch_ok env fuel s (some l) s' hf]
  exact runGroups_singletons_ok s' l hok

/-- A module with no dependencies that succeeds. -/
def okLeafA : Module Nat :=
  { val := 4, params := [], hasCallback := false, initRes := fun _ => none }

/-- A module declaring a dependency on "a" that succeeds. -/
def okSvcB : Module Nat :=
  { val := 5, params := ["a"], hasCallback := false, initRes := fun _ => none }

/-- A registry with "a" and "b", where "b" depends on "a". -/
def c3State : LoaderState Nat :=
  registerService (registerService (emptyState Nat) "a" okLeafA) "b" okSvcB

/-- Claim C3 witness: forcing ["b", "a"] executes b before a even
though b declares a dependency on a. -/
theorem c3_forced_order_witness :
    init env0 1 c3State (some ["b", "a"]) = ⟨[none], none, ["b", "a"]⟩ :=
  (c3_forced_order env0 1 c3State c3State ["b", "a"] rfl (by decide)).2

/-! ## External-resolution lemmas (claims C1 and C4) -/

/-- The dependency scan of one requester never load-attempts an
injected identifier, never changes the injected map, and never changes
the module entry of an injected identifier. -/
theorem fetchDepsFor_injected_stable (env : ExtEnv α) (req d0 : String) :
    ∀ (deps : List String) (s : LoaderState α) (again : Bool),
      (lookupA s.injectedMap d0).isSome = true →
      (∀ p ∈ (fetchDepsFor env req deps s again).attempts, p.2 ≠ d0) ∧
      (∀ s' b, (fetchDepsFor env req deps s again).out = .ok (s', b) →
          s'.injectedMap = s.injectedMap ∧
          lookupA s'.moduleMap d0 = lookupA s.moduleMap d0) := by
  intro deps
  induction deps with
  | nil =>
    intro s again hinj
    refine ⟨?_, ?_⟩
    · intro p hp
      simp [fetchDepsFor] at hp
    · intro s' b h
      simp only [fetchDepsFor] at h
      rw [Except.ok.injEq, Prod.mk.injEq] at h
      obtain ⟨hs, -⟩ := h
      rw [← hs]
      exact ⟨rfl, rfl⟩
  | cons d rest ih =>
    intro s again hinj
    by_cases hcond : (lookupA s.dependencyMap d).isNone = true ∧
        (lookupA s.injectedMap d).isNone = true
    · have hd0 : d ≠ d0 := by
        intro hdd
        have h2 := hcond.2
        rw [hdd, Option.isNone_iff_eq_none] at h2
        rw [h2, Option.isSome_none] at hinj
        exact Bool.noConfusion hinj
      cases henv : env d with
      | error msg =>
        refine ⟨?_, ?_⟩
        · intro p hp
          simp only [fetchDepsFor, if_pos hcond, henv] at hp
          rw [List.mem_singleton] at hp
          rw [hp]
          exact hd0
        · intro s' b h
          simp only [fetchDepsFor, if_pos hcond, henv] at h
          exact Except.noConfusion h
      | ok m =>
        obtain ⟨ha, hb⟩ := ih
          { s with moduleMap := updateA s.moduleMap d m,
                   dependencyMap :=
                     updateA s.dependencyMap d (normalizeServiceNames m.params) }
          true hinj
        refine ⟨?_, ?_⟩
        · intro p hp
          simp only [fetchDepsFor, if_pos hcond, henv] at hp
          cases hp with
          | head => exact hd0
          | tail _ hmem => exact ha p hmem
        · intro s' b h
          simp only [fetchDepsFor, if_pos hcond, henv] at h
          obtain ⟨h1, h2⟩ := hb s' b h
          refine ⟨h1, ?_⟩
          rw [h2]
          exact lookupA_updateA_ne s.moduleMap d d0 m (Ne.symm hd0)
    · obtain ⟨ha, hb⟩ := ih s again hinj
      refine ⟨?_, ?_⟩
      · intro p hp
        simp only [fetchDepsFor, if_neg hcond] at hp
        exact ha p hp
      · intro s' b h
        simp only [fetchDepsFor, if_neg hcond] at h
        exact hb s' b h

/-- One pass of the unmet-dependency scan has the same three
stability properties. -/
theorem fetchPass_injected_stable (env : ExtEnv α) (d0 : String) :
    ∀ (entries : List (String × List String)) (s : LoaderState α) (again : Bool),
      (lookupA s.injectedMap d0).isSome = true →
      (∀ p ∈ (fetchPass env entries s again).attempts, p.2 ≠ d0) ∧
      (∀ s' b, (fetchPass env entries s again).out = .ok (s', b) →
          s'.injectedMap = s.injectedMap ∧
          lookupA s'.moduleMap d0 = lookupA s.moduleMap d0) := by
  intro entries
  induction entries with
  | nil =>
    intro s again hinj
    refine ⟨?_, ?_⟩
    · intro p hp
      simp [fetchPass] at hp
    · intro s' b h
      simp only [fetchPass] at h
      rw [Except.ok.injEq, Prod.mk.injEq] at h
      obtain ⟨hs, -⟩ := h
      rw [← hs]
      exact ⟨rfl, rfl⟩
  | cons entry rest ih =>
    obtain ⟨id, deps⟩ := entry
    intro s again hinj
    obtain ⟨ha, hb⟩ := fetchDepsFor_injected_stable env id d0 deps s again hinj
    cases hro : (fetchDepsFor env id deps s again).out with
    | error e =>
      refine ⟨?_, ?_⟩
      · intro p hp
        simp only [fetchPass, hro] at hp
        exact ha p hp
      · intro s' b h
        simp only [fetchPass, hro] at h
        exact Except.noConfusion h
    | ok sb =>
      obtain ⟨s1, a1⟩ := sb
      obtain ⟨h1, h2⟩ := hb s1 a1 hro
      have hinj1 : (lookupA s1.injectedMap d0).isSome = true := by
        rw [h1]; exact hinj
      obtain ⟨ha2, hb2⟩ := ih s1 a1 hinj1
      refine ⟨?_, ?_⟩
      · intro p hp
        simp only [fetchPass, hro] at hp
        rw [List.mem_append] at hp
        cases hp with
        | inl hl => exact ha p hl
        | inr hr => exact ha2 p hr
      · intro s' b h
        simp only [fetchPass, hro] at h
        obtain ⟨h3, h4⟩ := hb2 s' b h
        exact ⟨h3.trans h1, h4.trans h2⟩

/-- The whole iterated resolution never load-attempts an injected
identifier, and preserves the injected map and the module entry of an
injected identifier. -/
theorem fetchUnmet_injected_stable (env : ExtEnv α) (d0 : String) :
    ∀ (fuel : Nat) (s : LoaderState α),
      (lookupA s.injectedMap d0).isSome = true →
      (∀ p ∈ (fetchUnmetDependencies env fuel s).attempts, p.2 ≠ d0) ∧
      (∀ s', (fetchUnmetDependencies env fuel s).result = .ok s' →
          s'.injectedMap = s.injectedMap ∧
          lookupA s'.moduleMap d0 = lookupA s.moduleMap d0) := by
  intro fuel
  induction fuel with
  | zero =>
    intro s hinj
    obtain ⟨ha, hb⟩ := fetchPass_injected_stable env d0 s.dependencyMap s false hinj
    cases hro : (fetchPass env s.dependencyMap s false).out with
    | error e =>
      refine ⟨?_, ?_⟩
      · intro p hp
        simp only [fetchUnmetDependencies, hro] at hp
        exact ha p hp
      · intro s' h
        simp only [fetchUnmetDependencies, hro] at h
        exact Except.noConfusion h
    | ok sb =>
      obtain ⟨s1, a1⟩ := sb
      refine ⟨?_, ?_⟩
      · intro p hp
        simp only [fetchUnmetDependencies, hro] at hp
        exact ha p hp
      · intro s' h
        simp only [fetchUnmetDependencies, hro] at h
        rw [Except.ok.injEq] at h
        obtain ⟨h1, h2⟩ := hb s1 a1 hro
        rw [← h]
        exact ⟨h1, h2⟩
  | succ fuel ih =>
    intro s hinj
    obtain ⟨ha, hb⟩ := fetchPass_injected_stable env d0 s.dependencyMap s false hinj
    cases hro : (fetchPass env s.dependencyMap s false).out with
    | error e =>
      refine ⟨?_, ?_⟩
      · intro p hp
        simp only [fetchUnmetDependencies, hro] at hp
        exact ha p hp
      · intro s' h
        simp only [fetchUnmetDependencies, hro] at h
        exact Except.noConfusion h
    | ok sb =>
      obtain ⟨s1, a1⟩ := sb
      obtain ⟨h1, h2⟩ := hb s1 a1 hro
      cases a1 with
      | false =>
        refine ⟨?_, ?_⟩
        · intro p hp
          simp only [fetchUnmetDependencies, hro] at hp
          exact ha p hp
        · intro s' h
          simp only [fetchUnmetDependencies, hro] at h
          rw [Except.ok.injEq] at h
          rw [← h]
          exact ⟨h1, h2⟩
      | true =>
        have hinj1 : (lookupA s1.injectedMap d0).isSome = true := by
          rw [h1]; exact hinj
        obtain ⟨ha2, hb2⟩ := ih s1 hinj1
        refine ⟨?_, ?_⟩
        · intro p hp
          simp only [fetchUnmetDependencies, hro] at hp
          rw [List.mem_append] at hp
          cases hp with
          | inl hl => exact ha p hl
          | inr hr => exact ha2 p hr
        · intro s' h
          simp only [fetchUnmetDependencies, hro] at h
          obtain ⟨h3, h4⟩ := hb2 s' h
          exact ⟨h3.trans h1, h4.trans h2⟩

/-- Claim C1 (amended): an injected identifier is never treated as
unmet — no external load is ever attempted for it — and a module
depending on it receives the injected object as the corresponding
positional argument, provided no service module is registered under
the same identifier (the parameter loop consults the module map first,
so a module of the same id would win). -/
theorem c1_injected_precedence (env : ExtEnv α) (fuel : Nat) (s : LoaderState α)
    (d : String) (o : α) (hinj : lookupA s.injectedMap d = some o) :
    (∀ p ∈ (fetchUnmetDependencies env fuel s).attempts, p.2 ≠ d) ∧
    (∀ s', (fetchUnmetDependencies env fuel s).result = .ok s' →
        lookupA s.moduleMap d = none →
        ∀ (deps : List String) (i : Nat), deps[i]? = some d →
          (resolveParams s' deps)[i]? = some (some o)) := by
  have hs : (lookupA s.injectedMap d).isSome = true := by rw [hinj]; rfl
  obtain ⟨h1, h2⟩ := fetchUnmet_injected_stable env d fuel s hs
  refine ⟨h1, ?_⟩
  intro s' hok hmod deps i hget
  obtain ⟨hinj', hmod'⟩ := h2 s' hok
  unfold resolveParams
  rw [List.getElem?_map, hget]
  simp only [Option.map_some']
  rw [hmod'.trans hmod, hinj', hinj]

/-- The injected object of the C1 counterexample. -/
def cacheModule : Module Nat :=
  { val := 1, params := [], hasCallback := false, initRes := fun _ => none }

/-- A service depending on "cache" whose init reports an error unless
it is handed the injected object 99. -/
def cacheConsumerSvc : Module Nat :=
  { val := 2, params := ["cache"], hasCallback := false,
    initRes := fun ps => if ps = [some 99] then none else some "module won over injected" }

/-- A registry where "cache" is both a registered service module and an
injected object. -/
def c1State : LoaderState Nat :=
  inject
    (registerService (registerService (emptyState Nat) "cache" cacheModule)
      "svc" cacheConsumerSvc)
    "cache" 99 none

/-- Claim C1, counterexample: with both a module and an injected object
under "cache", a module depending on "cache" receives the module value
(1), not the injected object (99) — the run reports the discriminating
error raised by the dependent module's init. -/
theorem c1_counterexample :
    lookupA c1State.injectedMap "cache" = some 99 ∧
    resolveParams c1State ["cache"] = [some 1] ∧
    (init env0 0 c1State (some ["svc"])).calls = [some "module won over injected"] := by
  decide

/-- A registry where "cache" is injected only (no module of that id). -/
def c1WitnessState : LoaderState Nat :=
  inject (registerService (emptyState Nat) "svc" cacheConsumerSvc) "cache" 99 none

/-- Claim C1 witness: the amended statement at a concrete state — no
load attempt targets "cache", and the dependent module's parameter
resolves to the injected object. -/
theorem c1_injected_precedence_witness :
    (∀ p ∈ (fetchUnmetDependencies env0 2 c1WitnessState).attempts, p.2 ≠ "cache") ∧
    (resolveParams c1WitnessState ["cache"])[0]? = some (some 99) := by
  have h := c1_injected_precedence env0 2 c1WitnessState "cache" 99 rfl
  exact ⟨h.1, h.2 c1WitnessState rfl rfl ["cache"] 0 rfl⟩

/-- An error from the dependency scan of one requester is the wrapped
load error of an attempted dependency, naming the dependency and the
requester. -/
theorem fetchDepsFor_error_shape (env : ExtEnv α) (req : String) :
    ∀ (deps : List String) (s : LoaderState α) (again : Bool) (e : Err),
      (fetchDepsFor env req deps s again).out = .error e →
      ∃ dep msg, (req, dep) ∈ (fetchDepsFor env req deps s again).attempts ∧
        env dep = .error msg ∧
        e = "Error loading dependency " ++ dep ++ " for " ++ req ++ ": " ++ msg := by
  intro deps
  induction deps with
  | nil =>
    intro s again e h
    simp only [fetchDepsFor] at h
    exact Except.noConfusion h
  | cons d rest ih =>
    intro s again e h
    by_cases hcond : (lookupA s.dependencyMap d).isNone = true ∧
        (lookupA s.injectedMap d).isNone = true
    · cases henv : env d with
      | error msg =>
        simp only [fetchDepsFor, if_pos hcond, henv] at h ⊢
        rw [Except.error.injEq] at h
        exact ⟨d, msg, List.mem_singleton_self _, henv, h.symm⟩
      | ok m =>
        simp only [fetchDepsFor, if_pos hcond, henv] at h ⊢
        obtain ⟨dep, msg, hmem, he, hstr⟩ := ih _ true e h
        exact ⟨dep, msg, List.mem_cons_of_mem _ hmem, he, hstr⟩
    · simp only [fetchDepsFor, if_neg hcond] at h ⊢
      exact ih s again e h

/-- An error from one pass is a wrapped load error naming the missing
dependency and its requester. -/
theorem fetchPass_error_shape (env : ExtEnv α) :
    ∀ (entries : List (String × List String)) (s : LoaderState α) (again : Bool) (e : Err),
      (fetchPass env entries s again).out = .error e →
      ∃ req dep msg, (req, dep) ∈ (fetchPass env entries s again).attempts ∧
        env dep = .error msg ∧
        e = "Error loading dependency " ++ dep ++ " for " ++ req ++ ": " ++ msg := by
  intro entries
  induction entries with
  | nil =>
    intro s again e h
    simp only [fetchPass] at h
    exact Except.noConfusion h
  | cons entry rest ih =>
    obtain ⟨id, deps⟩ := entry
    intro s again e h
    cases hro : (fetchDepsFor env id deps s again).out with
    | error e' =>
      simp only [fetchPass, hro] at h ⊢
      rw [Except.error.injEq] at h
      obtain ⟨dep, msg, hmem, he, hstr⟩ := fetchDepsFor_error_shape env id deps s again e' hro
      exact ⟨id, dep, msg, hmem, he, h ▸ hstr⟩
    | ok sb =>
      obtain ⟨s1, a1⟩ := sb
      simp only [fetchPass, hro] at h ⊢
      obtain ⟨req, dep, msg, hmem, he, hstr⟩ := ih s1 a1 e h
      exact ⟨req, dep, msg, List.mem_append_right _ hmem, he, hstr⟩

/-- An error from the whole iterated resolution is a wrapped load error
naming the missing dependency and its requester. -/
theorem fetchUnmet_error_shape (env : ExtEnv α) :
    ∀ (fuel : Nat) (s : LoaderState α) (e : Err),
      (fetchUnmetDependencies env fuel s).result = .error e →
      ∃ req dep msg, (req, dep) ∈ (fetchUnmetDependencies env fuel s).attempts ∧
        env dep = .error msg ∧
        e = "Error loading dependency " ++ dep ++ " for " ++ req ++ ": " ++ msg := by
  intro fuel
  induction fuel with
  | zero =>
    intro s e h
    cases hro : (fetchPass env s.dependencyMap s false).out with
    | error e' =>
      simp only [fetchUnmetDependencies, hro] at h ⊢
      rw [Except.error.injEq] at h
      obtain ⟨req, dep, msg, hmem, he, hstr⟩ :=
        fetchPass_error_shape env s.dependencyMap s false e' hro
      exact ⟨req, dep, msg, hmem, he, h ▸ hstr⟩
    | ok sb =>
      obtain ⟨s1, a1⟩ := sb
      simp only [fetchUnmetDependencies, hro] at h
      exact Except.noConfusion h
  | succ fuel ih =>
    intro s e h
    cases hro : (fetchPass env s.dependencyMap s false).out with
    | error e' =>
      simp only [fetchUnmetDependencies, hro] at h ⊢
      rw [Except.error.injEq] at h
      obtain ⟨req, dep, msg, hmem, he, hstr⟩ :=
        fetchPass_error_shape env s.dependencyMap s false e' hro
      exact ⟨req, dep, msg, hmem, he, h ▸ hstr⟩
    | ok sb =>
      obtain ⟨s1, a1⟩ := sb
      cases a1 with
      | false =>
        simp only [fetchUnmetDependencies, hro] at h
        exact Except.noConfusion h
      | true =>
        simp only [fetchUnmetDependencies, hro] at h ⊢
        obtain ⟨req, dep, msg, hmem, he, hstr⟩ := ih s1 e h
        exact ⟨req, dep, msg, List.mem_append_right _ hmem, he, hstr⟩

/-- A successful dependency scan implies every attempted load
succeeded (a load failure is never dropped). -/
theorem fetchDepsFor_ok_attempts (env : ExtEnv α) (req : String) :
    ∀ (deps : List String) (s : LoaderState α) (again : Bool)
      (s' : LoaderState α) (b : Bool),
      (fetchDepsFor env req deps s again).out = .ok (s', b) →
      ∀ p ∈ (fetchDepsFor env req deps s again).attempts, ∃ m, env p.2 = .ok m := by
  intro deps
  induction deps with
  | nil =>
    intro s again s' b _ p hp
    simp [fetchDepsFor] at hp
  | cons d rest ih =>
    intro s again s' b h p hp
    by_cases hcond : (lookupA s.dependencyMap d).isNone = true ∧
        (lookupA s.injectedMap d).isNone = true
    · cases henv : env d with
      | error msg =>
        simp only [fetchDepsFor, if_pos hcond, henv] at h
        exact Except.noConfusion h
      | ok m =>
        simp only [fetchDepsFor, if_pos hcond, henv] at h hp
        cases hp with
        | head => exact ⟨m, henv⟩
        | tail _ hmem => exact ih _ true s' b h p hmem
    · simp only [fetchDepsFor, if_neg hcond] at h hp
      exact ih s again s' b h p hp

/-- A successful pass implies every attempted load succeeded. -/
theorem fetchPass_ok_attempts (env : ExtEnv α) :
    ∀ (entries : List (String × List String)) (s : LoaderState α) (again : Bool)
      (s' : LoaderState α) (b : Bool),
      (fetchPass env entries s again).out = .ok (s', b) →
      ∀ p ∈ (fetchPass env entries s again).attempts, ∃ m, env p.2 = .ok m := by
  intro entries
  induction entries with
  | nil =>
    intro s again s' b _ p hp
    simp [fetchPass] at hp
  | cons entry rest ih =>
    obtain ⟨id, deps⟩ := entry
    intro s again s' b h p hp
    cases hro : (fetchDepsFor env id deps s again).out with
    | error e =>
      simp only [fetchPass, hro] at h
      exact Except.noConfusion h
    | ok sb =>
      obtain ⟨s1, a1⟩ := sb
      simp only [fetchPass, hro] at h hp
      rw [List.mem_append] at hp
      cases hp with
      | inl hl => exact fetchDepsFor_ok_attempts env id deps s again s1 a1 hro p hl
      | inr hr => exact ih s1 a1 s' b h p hr

/-- A successful iterated resolution implies every attempted load
succeeded — the resolver never silently drops a load failure. -/
theorem fetchUnmet_ok_attempts (env : ExtEnv α) :
    ∀ (fuel : Nat) (s : LoaderState α) (s' : LoaderState α),
      (fetchUnmetDependencies env fuel s).result = .ok s' →
      ∀ p ∈ (fetchUnmetDependencies env fuel s).attempts, ∃ m, env p.2 = .ok m := by
  intro fuel
  induction fuel with
  | zero =>
    intro s s' h p hp
    cases hro : (fetchPass env s.dependencyMap s false).out with
    | error e =>
      simp only [fetchUnmetDependencies, hro] at h
      exact Except.noConfusion h
    | ok sb =>
      obtain ⟨s1, a1⟩ := sb
      simp only [fetchUnmetDependencies, hro] at hp
      exact fetchPass_ok_attempts env s.dependencyMap s false s1 a1 hro p hp
  | succ fuel ih =>
    intro s s' h p hp
    cases hro : (fetchPass env s.dependencyMap s false).out with
    | error e =>
      simp only [fetchUnmetDependencies, hro] at h
      exact Except.noConfusion h
    | ok sb =>
      obtain ⟨s1, a1⟩ := sb
      cases a1 with
      | false =>
        simp only [fetchUnmetDependencies, hro] at hp
        exact fetchPass_ok_attempts env s.dependencyMap s false s1 false hro p hp
      | true =>
        simp only [fetchUnmetDependencies, hro] at h hp
        rw [List.mem_append] at hp
        cases hp with
        | inl hl => exact fetchPass_ok_attempts env s.dependencyMap s false s1 true hro p hl
        | inr hr => exact ih s1 s' h p hr

/-- Claim C4: when loading an external dependency fails, the run's
error is exactly the wrapped load error naming both the missing
dependency identifier and the requesting module's identifier, and init
delivers it through its completion callback without proceeding to graph
build or execution (nothing is dispatched, no crash escapes);
conversely a successful resolution means every attempted load
succeeded, so a load failure is never silently dropped. -/
theorem c4_external_load_failure (env : ExtEnv α) (fuel : Nat)
    (s : LoaderState α) (e : Err)
    (h : (fetchUnmetDependencies env fuel s).result = .error e) :
    (∃ req dep msg,
        (req, dep) ∈ (fetchUnmetDependencies env fuel s).attempts ∧
        env dep = .error msg ∧
        e = "Error loading dependency " ++ dep ++ " for " ++ req ++ ": " ++ msg) ∧
    (∀ l, init env fuel s l = ⟨[some e], none, []⟩) ∧
    (∀ (t : LoaderState α) (fl : Nat) (t' : LoaderState α),
        (fetchUnmetDependencies env fl t).result = .ok t' →
        ∀ p ∈ (fetchUnmetDependencies env fl t).attempts, ∃ m, env p.2 = .ok m) :=
  ⟨fetchUnmet_error_shape env fuel s e h,
   fun l => init_eq_of_fetch_error env fuel s l e h,
   fun t fl t' ht => fetchUnmet_ok_attempts env fl t t' ht⟩

/-- A service declaring a dependency "ghost" that no ecosystem
provides. -/
def ghostSvc : Module Nat :=
  { val := 6, params := ["ghost"], hasCallback := false, initRes := fun _ => none }

/-- A registry holding only `ghostSvc` under "svc". -/
def c4State : LoaderState Nat := registerService (emptyState Nat) "svc" ghostSvc

/-- Claim C4 witness: the concrete failing load produces exactly the
wrapped error through the callback, with nothing executed. -/
theorem c4_external_load_failure_witness :
    init env0 1 c4State none =
      ⟨[some "Error loading dependency ghost for svc: Cannot find module"],
       none, []⟩ :=
  (c4_external_load_failure env0 1 c4State
    "Error loading dependency ghost for svc: Cannot find module" rfl).2.1 none

end BlueOak
